import Mathlib

/-!
Shallow embedding of the cratetorrent disk IO core
(`src/cratetorrent/src/disk.rs` and the disk task it drives).

Bytes are `Nat`s, byte strings are `List Nat`, and the event loop is an
explicit state-transition function on a `Disk` state.  The SHA1 hasher is an
abstract parameter `hashFn : List Nat → List Nat`; the expected digest of
piece `i` is the `i`-th 20-byte slice of the torrent's `piece_hashes`.

`disk.rs` itself only declares the handle, the command/alert message types and
the tests; the modules `io` and `error` and the crate-level items
(`BlockInfo`, `StorageInfo`, `block_count`, `BLOCK_LEN`) are not present in
the sources, so the event loop below is modelled from the specification
(section 4.2 of the spec), with one deliberate deviation recorded at
`handleNewTorrent`: the repository's own test `test_write_invalid_piece`
asserts that the download file does not exist after allocation plus a
rejected piece, so file creation is deferred to the first committed piece
rather than performed at allocation time.
-/

/-- Modelled from the spec: the fixed block size `B` (16 KiB), the crate
root's `BLOCK_LEN` constant, which is not under `src/`. -/
def BLOCK_LEN : Nat := 16384

/-- Modelled from the spec: the crate root's `block_count`, the number of
block slots of a piece, `⌈piece_len / B⌉`. -/
def block_count (piece_len : Nat) : Nat :=
  (piece_len + BLOCK_LEN - 1) / BLOCK_LEN

/-- Modelled from the spec (§3) and the uses in `disk.rs`'s tests: locator of
a sub-range within a piece. -/
structure BlockInfo where
  piece_index : Nat
  offset : Nat
  len : Nat
deriving DecidableEq, Repr

/-- Modelled from the spec (§3) and the construction in `tests::Env::new`:
immutable per-torrent storage configuration. -/
structure StorageInfo where
  piece_count : Nat
  piece_len : Nat
  last_piece_len : Nat
  download_len : Nat
  download_path : String
deriving DecidableEq, Repr

/-- Length of piece `i`: the uniform piece length `L` for all but the last
piece, which has length `L′` (spec §3, §6). -/
def StorageInfo.piece_length (info : StorageInfo) (i : Nat) : Nat :=
  if i + 1 = info.piece_count then info.last_piece_len else info.piece_len

/-- Rust's `Result<T, E>`. -/
inductive Result (α ε : Type) where
  | Ok (val : α)
  | Err (e : ε)
deriving DecidableEq, Repr

/-- Error kinds of torrent allocation (spec §7; `error` module is not under
`src/`).  Filesystem failures are outside this pure model, so the `Io` kind
does not arise. -/
inductive NewTorrentError where
  | AlreadyExists
  | InvalidMetadata
deriving DecidableEq, Repr

/-- Error kinds of block writes (spec §7); `Io` does not arise in the pure
model. -/
inductive WriteError where
  | InvalidBlock
deriving DecidableEq, Repr

/-- The handle-side error: the command inbox is closed (spec §4.1, §7). -/
inductive Error where
  | ChannelClosed
deriving DecidableEq, Repr

/-- `BatchWrite` from `disk.rs`: the payload of a successful batch alert. -/
structure BatchWrite where
  blocks : List BlockInfo
  is_piece_valid : Option Bool
deriving DecidableEq, Repr

/-- `TorrentAlert` from `disk.rs`: per-torrent alerts. -/
inductive TorrentAlert where
  | BatchWrite (res : Result BatchWrite WriteError)
deriving DecidableEq, Repr

/-- `Alert` from `disk.rs`: global alerts.  The successful allocation carries
the torrent id; the per-torrent alert port is modelled as the `alerts` list
inside the torrent's entry. -/
inductive Alert where
  | TorrentAllocation (res : Result Nat NewTorrentError)
deriving DecidableEq, Repr

/-- `Command` from `disk.rs`: the disk task's command inbox messages. -/
inductive Command where
  | NewTorrent (id : Nat) (info : StorageInfo) (piece_hashes : List Nat)
  | WriteBlock (id : Nat) (info : BlockInfo) (data : List Nat)
  | Shutdown
deriving DecidableEq, Repr

/-- Association-list lookup, the model of `HashMap::get`. -/
def lookupA {α : Type} : List (Nat × α) → Nat → Option α
  | [], _ => none
  | (k, v) :: rest, key => if k = key then some v else lookupA rest key

/-- Association-list insert-or-replace, the model of `HashMap::insert`. -/
def setA {α : Type} : List (Nat × α) → Nat → α → List (Nat × α)
  | [], key, v => [(key, v)]
  | (k, v0) :: rest, key, v =>
    if k = key then (key, v) :: rest else (k, v0) :: setA rest key v

/-- Association-list removal, the model of `HashMap::remove`. -/
def removeA {α : Type} : List (Nat × α) → Nat → List (Nat × α)
  | [], _ => []
  | (k, v) :: rest, key => if k = key then rest else (k, v) :: removeA rest key

/-- Modelled from the spec (§3, §4.3): per-piece accumulator of received
blocks, kept sorted by block offset. -/
structure PieceBuffer where
  expected_len : Nat
  blocks : List (Nat × List Nat)
deriving DecidableEq, Repr

/-- Sorted insertion of a block keyed by its offset. -/
def insertBlock : List (Nat × List Nat) → Nat → List Nat → List (Nat × List Nat)
  | [], off, data => [(off, data)]
  | (o, d) :: rest, off, data =>
    if off < o then (off, data) :: (o, d) :: rest
    else (o, d) :: insertBlock rest off data

/-- Whether a block with this offset is already buffered (duplicate test,
spec §4.2 step 2). -/
def PieceBuffer.hasOffset (buf : PieceBuffer) (off : Nat) : Bool :=
  buf.blocks.any (fun b => b.1 == off)

/-- Buffer a block. -/
def PieceBuffer.insert (buf : PieceBuffer) (off : Nat) (data : List Nat) :
    PieceBuffer :=
  { buf with blocks := insertBlock buf.blocks off data }

/-- Running count of buffered bytes (spec §3). -/
def PieceBuffer.bytesReceived (buf : PieceBuffer) : Nat :=
  (buf.blocks.map (fun b => b.2.length)).sum

/-- Assemble the piece image: concatenation of the buffered payloads in
ascending offset order (spec §4.2 step 3). -/
def PieceBuffer.assemble (buf : PieceBuffer) : List Nat :=
  (buf.blocks.map Prod.snd).flatten

/-- Modelled from the spec (§3): per-torrent state of the disk task.  The
per-torrent alert channel is the `alerts` list, in emission order; the
destination file is `none` while it has not been created. -/
structure TorrentEntry where
  info : StorageInfo
  piece_hashes : List Nat
  buffers : List (Nat × PieceBuffer)
  file : Option (List Nat)
  alerts : List TorrentAlert
deriving DecidableEq, Repr

/-- Modelled from the spec (§3, §4.2): the whole state owned by the disk
task: the registry, the global alert channel (in emission order) and whether
the event loop is still consuming the inbox. -/
structure Disk where
  torrents : List (Nat × TorrentEntry)
  alerts : List Alert
  running : Bool
deriving DecidableEq, Repr

/-- `Disk::new`: empty registry, no alerts, loop running. -/
def Disk.new : Disk :=
  { torrents := [], alerts := [], running := true }

/-- The expected digest of piece `i`: the `i`-th 20-byte slice of the flat
`piece_hashes` byte string (spec §3). -/
def expectedHash (hashes : List Nat) (i : Nat) : List Nat :=
  (hashes.drop (i * 20)).take 20

/-- Positioned write into the destination file; if the file does not exist
yet it is created zero-filled at the full `download_len` (spec §4.5, with the
creation deferred as explained in the module comment). -/
def writeToFile (file : Option (List Nat)) (download_len off : Nat)
    (bytes : List Nat) : List Nat :=
  let f := file.getD (List.replicate download_len 0)
  f.take off ++ bytes ++ f.drop (off + bytes.length)

/-- Modelled from the spec (§4.2 step 3): finalisation of a completed piece:
hash the assembled image, commit it to the file at offset `i · L` when the
digest matches, reject it otherwise; either way drop the buffer and emit one
`BatchWrite` alert. -/
def finalizePiece (hashFn : List Nat → List Nat) (e : TorrentEntry) (i : Nat)
    (buf : PieceBuffer) : TorrentEntry :=
  if hashFn buf.assemble = expectedHash e.piece_hashes i then
    { e with
      file := some (writeToFile e.file e.info.download_len
        (i * e.info.piece_len) buf.assemble),
      buffers := removeA e.buffers i,
      alerts := e.alerts ++ [TorrentAlert.BatchWrite (.Ok
        { blocks := buf.blocks.map (fun b => BlockInfo.mk i b.1 b.2.length),
          is_piece_valid := some true })] }
  else
    { e with
      buffers := removeA e.buffers i,
      alerts := e.alerts ++ [TorrentAlert.BatchWrite (.Ok
        { blocks := [], is_piece_valid := some false })] }

/-- Modelled from the spec (§4.2 `NewTorrent`): duplicate ids are rejected
first; metadata is validated; a fresh entry is inserted.  File creation is
deferred (see the module comment and `test_write_invalid_piece`). -/
def handleNewTorrent (d : Disk) (id : Nat) (info : StorageInfo)
    (piece_hashes : List Nat) : Disk :=
  match lookupA d.torrents id with
  | some _ =>
    { d with alerts :=
        d.alerts ++ [Alert.TorrentAllocation (.Err .AlreadyExists)] }
  | none =>
    if piece_hashes.length = info.piece_count * 20 then
      { d with
        torrents := setA d.torrents id
          { info := info, piece_hashes := piece_hashes, buffers := [],
            file := none, alerts := [] },
        alerts := d.alerts ++ [Alert.TorrentAllocation (.Ok id)] }
    else
      { d with alerts :=
          d.alerts ++ [Alert.TorrentAllocation (.Err .InvalidMetadata)] }

/-- Block validation (spec §4.2 `WriteBlock` step 1): the piece index is in
range, the range is non-empty and lies within the piece, and the payload
length agrees with the declared length. -/
def validBlock (info : StorageInfo) (binfo : BlockInfo) (data : List Nat) :
    Prop :=
  binfo.piece_index < info.piece_count ∧ 0 < binfo.len ∧
    binfo.offset + binfo.len ≤ info.piece_length binfo.piece_index ∧
    data.length = binfo.len

instance (info : StorageInfo) (binfo : BlockInfo) (data : List Nat) :
    Decidable (validBlock info binfo data) := by
  unfold validBlock
  infer_instance

/-- Modelled from the spec (§4.2 `WriteBlock`): unknown torrents drop the
block silently; invalid blocks mark the piece failed (its buffer is dropped)
and alert `Err InvalidBlock`; duplicates are absorbed silently; otherwise the
block is buffered and the piece is finalised when its byte count reaches the
piece length. -/
def handleWriteBlock (hashFn : List Nat → List Nat) (d : Disk) (id : Nat)
    (binfo : BlockInfo) (data : List Nat) : Disk :=
  match lookupA d.torrents id with
  | none => d
  | some e =>
    let i := binfo.piece_index
    if validBlock e.info binfo data then
      let buf := (lookupA e.buffers i).getD
        { expected_len := e.info.piece_length i, blocks := [] }
      if buf.hasOffset binfo.offset then d
      else
        let buf2 := buf.insert binfo.offset data
        let e2 := { e with buffers := setA e.buffers i buf2 }
        let e3 := if buf2.bytesReceived = e.info.piece_length i
                  then finalizePiece hashFn e2 i buf2
                  else e2
        { d with torrents := setA d.torrents id e3 }
    else
      { d with
        torrents := setA d.torrents id
          { e with
            buffers := removeA e.buffers i,
            alerts := e.alerts ++
              [TorrentAlert.BatchWrite (.Err .InvalidBlock)] } }

/-- Modelled from the spec (§4.2): one step of the event loop; `Shutdown`
terminates the loop, closing the inbox. -/
def handleCommand (hashFn : List Nat → List Nat) (d : Disk) :
    Command → Disk
  | .NewTorrent id info hashes => handleNewTorrent d id info hashes
  | .WriteBlock id binfo data => handleWriteBlock hashFn d id binfo data
  | .Shutdown => { d with running := false }

/-- Sending a command from a handle (`CommandSender::send`): a non-blocking
enqueue that succeeds exactly when the inbox is open; because the task
consumes commands strictly sequentially, an accepted command is modelled as
processed in place. -/
def sendCommand (hashFn : List Nat → List Nat) (d : Disk) (c : Command) :
    Disk × Result Unit Error :=
  if d.running then (handleCommand hashFn d c, .Ok ()) else (d, .Err .ChannelClosed)

/-- Run a whole command sequence through `sendCommand`. -/
def runCommands (hashFn : List Nat → List Nat) (d : Disk) :
    List Command → Disk
  | [] => d
  | c :: rest => runCommands hashFn (sendCommand hashFn d c).1 rest

/-- `DiskHandle::allocate_new_torrent` from `disk.rs`. -/
def allocate_new_torrent (hashFn : List Nat → List Nat) (d : Disk) (id : Nat)
    (info : StorageInfo) (piece_hashes : List Nat) : Disk × Result Unit Error :=
  sendCommand hashFn d (.NewTorrent id info piece_hashes)

/-- `DiskHandle::write_block` from `disk.rs`. -/
def write_block (hashFn : List Nat → List Nat) (d : Disk) (id : Nat)
    (binfo : BlockInfo) (data : List Nat) : Disk × Result Unit Error :=
  sendCommand hashFn d (.WriteBlock id binfo data)

/-- `DiskHandle::shutdown` from `disk.rs`. -/
def shutdown (hashFn : List Nat → List Nat) (d : Disk) :
    Disk × Result Unit Error :=
  sendCommand hashFn d .Shutdown

/-- The canonical block layout of a piece, mirroring `tests::for_each_block`:
blocks of `BLOCK_LEN` bytes except that the final block may be shorter. -/
def forEachBlockGo (i plen : Nat) : Nat → Nat → List BlockInfo
  | 0, _ => []
  | n + 1, off =>
    let blen := min (plen - off) BLOCK_LEN
    BlockInfo.mk i off blen :: forEachBlockGo i plen n (off + blen)

/-- `tests::for_each_block`: the `block_count plen` canonical blocks of piece
`i` of length `plen`. -/
def for_each_block (i plen : Nat) : List BlockInfo :=
  forEachBlockGo i plen (block_count plen) 0

/-- The payload of a block taken from a piece image, mirroring the slice
`&piece[info.offset..block_end]` in the tests. -/
def blockData (piece : List Nat) (b : BlockInfo) : List Nat :=
  (piece.drop b.offset).take b.len

/-- Send `WriteBlock` commands for the given blocks of one piece, with the
payloads sliced from the piece image, in list order. -/
def writeBlocks (hashFn : List Nat → List Nat) (d : Disk) (id : Nat)
    (piece : List Nat) (bs : List BlockInfo) : Disk :=
  runCommands hashFn d (bs.map (fun b => Command.WriteBlock id b (blockData piece b)))

/-- Write whole pieces to completion in ascending index order starting at
`start`, mirroring the loop of `tests::test_write_all_pieces`. -/
def writePiecesFrom (hashFn : List Nat → List Nat) (id : Nat) :
    Disk → Nat → List (List Nat) → Disk
  | d, _, [] => d
  | d, start, p :: rest =>
    writePiecesFrom hashFn id
      (writeBlocks hashFn d id p (for_each_block start p.length)) (start + 1) rest

/-- All blocks of one successful batch name the same piece. -/
def batchSamePiece (bw : BatchWrite) : Prop :=
  ∀ b1 ∈ bw.blocks, ∀ b2 ∈ bw.blocks, b1.piece_index = b2.piece_index

/-- Every `BatchWrite (Ok _)` alert ever emitted for any torrent reports
blocks of a single piece. -/
def diskBatchInv (d : Disk) : Prop :=
  ∀ p ∈ d.torrents, ∀ a ∈ p.2.alerts,
    ∀ bw, a = TorrentAlert.BatchWrite (.Ok bw) → batchSamePiece bw

/-- The buffered `(offset, payload)` pairs that feeding the given blocks of a
piece image produces. -/
def slicePairs (piece : List Nat) (bs : List BlockInfo) : List (Nat × List Nat) :=
  bs.map (fun b => (b.offset, blockData piece b))

/-- A demonstration hash function for concrete runs: pad or truncate the
input to a 20-byte digest. -/
def demoHash (l : List Nat) : List Nat := (l ++ List.replicate 20 0).take 20

/-- Demonstration storage configuration: two pieces, `L = 3`, `L\u2032 = 2`. -/
def demoInfo : StorageInfo :=
  { piece_count := 2, piece_len := 3, last_piece_len := 2, download_len := 5,
    download_path := "/tmp/torrent0" }

/-- Expected hashes of the demonstration torrent under `demoHash`:
piece 0 is `[1,2,3]`, piece 1 is `[4,5]`. -/
def demoHashes : List Nat :=
  ([1, 2, 3] ++ List.replicate 17 0) ++ ([4, 5] ++ List.replicate 18 0)

/-- The demonstration torrent entry as freshly allocated. -/
def demoEntry : TorrentEntry :=
  { info := demoInfo, piece_hashes := demoHashes, buffers := [], file := none,
    alerts := [] }

/-- A disk state holding the allocated demonstration torrent. -/
def demoDisk : Disk :=
  { torrents := [(0, demoEntry)], alerts := [], running := true }

/-- The demonstration disk after committing piece 0 (a single-block piece). -/
def demoCommitted : Disk :=
  (write_block demoHash
    (allocate_new_torrent demoHash Disk.new 0 demoInfo demoHashes).1
    0 (BlockInfo.mk 0 0 3) [1, 2, 3]).1

/-- The demonstration disk after replaying piece 0's block once more. -/
def demoReplayed : Disk :=
  (write_block demoHash demoCommitted 0 (BlockInfo.mk 0 0 3) [1, 2, 3]).1

/-- A disk state whose piece 0 already buffers a block at offset 0. -/
def demoPartial : Disk :=
  { torrents := [(0, { demoEntry with
      buffers := [(0, { expected_len := 3, blocks := [(0, [9])] })] })],
    alerts := [], running := true }

/-- The torrent entry of the demonstration disk after piece 0 has been
committed. -/
def demoCommittedEntry : TorrentEntry :=
  { info := demoInfo, piece_hashes := demoHashes, buffers := [],
    file := some [1, 2, 3, 0, 0],
    alerts := [TorrentAlert.BatchWrite (.Ok
      { blocks := [BlockInfo.mk 0 0 3], is_piece_valid := some true })] }

theorem lookupA_setA_self {α : Type} (l : List (Nat × α)) (k : Nat) (v : α) :
    lookupA (setA l k v) k = some v := by
  induction l with
  | nil => simp [setA, lookupA]
  | cons p rest ih =>
    obtain ⟨k0, v0⟩ := p
    by_cases h : k0 = k
    · simp [setA, lookupA, h]
    · simp [setA, lookupA, h, ih]

theorem lookupA_setA_ne {α : Type} (l : List (Nat × α)) (k k' : Nat) (v : α)
    (h : k' ≠ k) : lookupA (setA l k v) k' = lookupA l k' := by
  induction l with
  | nil => simp [setA, lookupA, Ne.symm h]
  | cons p rest ih =>
    obtain ⟨k0, v0⟩ := p
    by_cases hk : k0 = k
    · subst hk
      simp [setA, lookupA, Ne.symm h]
    · simp [setA, lookupA, hk, ih]

theorem setA_setA {α : Type} (l : List (Nat × α)) (k : Nat) (v v' : α) :
    setA (setA l k v) k v' = setA l k v' := by
  induction l with
  | nil => simp [setA]
  | cons p rest ih =>
    obtain ⟨k0, v0⟩ := p
    by_cases h : k0 = k
    · simp [setA, h]
    · simp [setA, h, ih]

theorem setA_lookup_eq {α : Type} (l : List (Nat × α)) (k : Nat) (v : α)
    (h : lookupA l k = some v) : setA l k v = l := by
  induction l with
  | nil => simp [lookupA] at h
  | cons p rest ih =>
    obtain ⟨k0, v0⟩ := p
    by_cases hk : k0 = k
    · subst hk
      simp [lookupA] at h
      simp [setA, h]
    · simp [lookupA, hk] at h
      simp [setA, hk, ih h]

theorem setA_lookup_none {α : Type} (l : List (Nat × α)) (k : Nat) (v : α)
    (h : lookupA l k = none) : setA l k v = l ++ [(k, v)] := by
  induction l with
  | nil => simp [setA]
  | cons p rest ih =>
    obtain ⟨k0, v0⟩ := p
    by_cases hk : k0 = k
    · subst hk
      simp [lookupA] at h
    · simp [lookupA, hk] at h
      simp [setA, hk, ih h]

theorem removeA_setA {α : Type} (l : List (Nat × α)) (k : Nat) (v : α) :
    removeA (setA l k v) k = removeA l k := by
  induction l with
  | nil => simp [setA, removeA]
  | cons p rest ih =>
    obtain ⟨k0, v0⟩ := p
    by_cases h : k0 = k
    · simp [setA, removeA, h]
    · simp [setA, removeA, h, ih]

theorem removeA_lookup_none {α : Type} (l : List (Nat × α)) (k : Nat)
    (h : lookupA l k = none) : removeA l k = l := by
  induction l with
  | nil => simp [removeA]
  | cons p rest ih =>
    obtain ⟨k0, v0⟩ := p
    by_cases hk : k0 = k
    · subst hk
      simp [lookupA] at h
    · simp [lookupA, hk] at h
      simp [removeA, hk, ih h]

theorem lookupA_removeA_ne {α : Type} (l : List (Nat × α)) (k k' : Nat)
    (h : k' ≠ k) : lookupA (removeA l k) k' = lookupA l k' := by
  induction l with
  | nil => simp [removeA]
  | cons p rest ih =>
    obtain ⟨k0, v0⟩ := p
    by_cases hk : k0 = k
    · subst hk
      simp [removeA, lookupA, Ne.symm h]
    · simp [removeA, lookupA, hk, ih]

theorem mem_setA {α : Type} (l : List (Nat × α)) (k : Nat) (v : α)
    (p : Nat × α) (h : p ∈ setA l k v) : p ∈ l ∨ p = (k, v) := by
  induction l with
  | nil =>
    simp [setA] at h
    exact Or.inr h
  | cons q rest ih =>
    obtain ⟨k0, v0⟩ := q
    by_cases hk : k0 = k
    · simp [setA, hk] at h
      rcases h with h | h
      · exact Or.inr (by simp [h])
      · exact Or.inl (by simp [h])
    · simp [setA, hk] at h
      rcases h with h | h
      · exact Or.inl (by simp [h])
      · rcases ih h with h2 | h2
        · exact Or.inl (by simp [h2])
        · exact Or.inr h2

theorem mem_removeA {α : Type} (l : List (Nat × α)) (k : Nat)
    (p : Nat × α) (h : p ∈ removeA l k) : p ∈ l := by
  induction l with
  | nil => simp [removeA] at h
  | cons q rest ih =>
    obtain ⟨k0, v0⟩ := q
    by_cases hk : k0 = k
    · simp [removeA, hk] at h
      exact List.mem_cons_of_mem _ h
    · simp [removeA, hk] at h
      rcases h with h | h
      · simp [h]
      · exact List.mem_cons_of_mem _ (ih h)

theorem block_count_bounds (plen : Nat) (h : 0 < plen) :
    (block_count plen - 1) * BLOCK_LEN < plen ∧ plen ≤ block_count plen * BLOCK_LEN := by
  have hd := Nat.div_add_mod (plen + BLOCK_LEN - 1) BLOCK_LEN
  have hm : (plen + BLOCK_LEN - 1) % BLOCK_LEN < BLOCK_LEN :=
    Nat.mod_lt _ (by decide)
  unfold block_count
  unfold BLOCK_LEN at hd hm ⊢
  omega

theorem insertBlock_append (l : List (Nat × List Nat)) (off : Nat)
    (data : List Nat) (h : ∀ p ∈ l, p.1 < off) :
    insertBlock l off data = l ++ [(off, data)] := by
  induction l with
  | nil => simp [insertBlock]
  | cons p rest ih =>
    obtain ⟨o, dat⟩ := p
    have ho : o < off := h (o, dat) (by simp)
    simp [insertBlock, Nat.not_lt.mpr ho.le,
      ih (fun q hq => h q (List.mem_cons_of_mem _ hq))]

theorem hasOffset_false (elen : Nat) (l : List (Nat × List Nat)) (off : Nat)
    (h : ∀ p ∈ l, p.1 < off) :
    PieceBuffer.hasOffset ⟨elen, l⟩ off = false := by
  simp only [PieceBuffer.hasOffset, List.any_eq_false]
  intro p hp
  simp [Nat.ne_of_lt (h p hp)]

theorem bytesReceived_eq (elen : Nat) (l : List (Nat × List Nat)) :
    (PieceBuffer.mk elen l).bytesReceived = ((l.map Prod.snd).flatten).length := by
  simp [PieceBuffer.bytesReceived, List.length_flatten, List.map_map]
  rfl

theorem slicePairs_map_back (piece : List Nat) (i plen : Nat)
    (hp : piece.length = plen) :
    ∀ n off, (slicePairs piece (forEachBlockGo i plen n off)).map
      (fun p => BlockInfo.mk i p.1 p.2.length) = forEachBlockGo i plen n off := by
  intro n
  induction n with
  | zero => intro off; simp [forEachBlockGo, slicePairs]
  | succ m ih =>
    intro off
    have hlen : ((piece.drop off).take (min (plen - off) BLOCK_LEN)).length =
        min (plen - off) BLOCK_LEN := by
      rw [List.length_take, List.length_drop, hp]
      omega
    simp only [forEachBlockGo, slicePairs, List.map_cons, blockData]
    rw [hlen]
    exact congrArg _ (ih (off + min (plen - off) BLOCK_LEN))

theorem flatten_blockData (piece : List Nat) (i plen : Nat)
    (hp : piece.length = plen) :
    ∀ n off, plen - off ≤ n * BLOCK_LEN →
      ((forEachBlockGo i plen n off).map (fun b => blockData piece b)).flatten =
        piece.drop off := by
  intro n
  induction n with
  | zero =>
    intro off h
    have hnil : piece.drop off = [] := List.drop_eq_nil_of_le (by omega)
    simp [forEachBlockGo, hnil]
  | succ m ih =>
    intro off h
    have hrec := ih (off + min (plen - off) BLOCK_LEN)
      (by unfold BLOCK_LEN at h ⊢; omega)
    simp only [forEachBlockGo, List.map_cons, List.flatten_cons]
    rw [hrec]
    show (piece.drop off).take (min (plen - off) BLOCK_LEN) ++
      piece.drop (off + min (plen - off) BLOCK_LEN) = piece.drop off
    rw [← List.drop_drop, List.take_append_drop]

theorem sendCommand_running (hashFn : List Nat → List Nat) (d : Disk)
    (c : Command) (h : d.running = true) :
    sendCommand hashFn d c = (handleCommand hashFn d c, .Ok ()) := by
  simp [sendCommand, h]

theorem writeBlocks_nil (hashFn : List Nat → List Nat) (d : Disk) (id : Nat)
    (piece : List Nat) : writeBlocks hashFn d id piece [] = d := rfl

theorem writeBlocks_cons (hashFn : List Nat → List Nat) (d : Disk) (id : Nat)
    (piece : List Nat) (b : BlockInfo) (bs : List BlockInfo) :
    writeBlocks hashFn d id piece (b :: bs) =
      writeBlocks hashFn
        (sendCommand hashFn d (.WriteBlock id b (blockData piece b))).1
        id piece bs := rfl

theorem writeBlock_insert_step (hashFn : List Nat → List Nat) (d : Disk)
    (id : Nat) (binfo : BlockInfo) (data : List Nat) (e : TorrentEntry)
    (bufBlocks : List (Nat × List Nat))
    (hlook : lookupA d.torrents id = some e)
    (hbuf : (lookupA e.buffers binfo.piece_index = none ∧ bufBlocks = []) ∨
      lookupA e.buffers binfo.piece_index =
        some ⟨e.info.piece_length binfo.piece_index, bufBlocks⟩)
    (hvalid : validBlock e.info binfo data)
    (hkeys : ∀ p ∈ bufBlocks, p.1 < binfo.offset) :
    handleWriteBlock hashFn d id binfo data =
      { d with
        torrents := setA d.torrents id
          (if (PieceBuffer.mk (e.info.piece_length binfo.piece_index)
                (bufBlocks ++ [(binfo.offset, data)])).bytesReceived =
              e.info.piece_length binfo.piece_index
           then finalizePiece hashFn
              { e with
                buffers := setA e.buffers binfo.piece_index
                  (PieceBuffer.mk (e.info.piece_length binfo.piece_index)
                    (bufBlocks ++ [(binfo.offset, data)])) }
              binfo.piece_index
              (PieceBuffer.mk (e.info.piece_length binfo.piece_index)
                (bufBlocks ++ [(binfo.offset, data)]))
           else
              { e with
                buffers := setA e.buffers binfo.piece_index
                  (PieceBuffer.mk (e.info.piece_length binfo.piece_index)
                    (bufBlocks ++ [(binfo.offset, data)])) }) } := by
  have hbuf2 : (lookupA e.buffers binfo.piece_index).getD
      ⟨e.info.piece_length binfo.piece_index, []⟩ =
      ⟨e.info.piece_length binfo.piece_index, bufBlocks⟩ := by
    rcases hbuf with ⟨h1, h2⟩ | h1
    · simp [h1, h2]
    · simp [h1]
  have hdup : PieceBuffer.hasOffset
      ⟨e.info.piece_length binfo.piece_index, bufBlocks⟩ binfo.offset = false :=
    hasOffset_false _ _ _ hkeys
  have hins : insertBlock bufBlocks binfo.offset data =
      bufBlocks ++ [(binfo.offset, data)] := insertBlock_append _ _ _ hkeys
  simp only [handleWriteBlock, hlook, if_pos hvalid, hbuf2, hdup,
    PieceBuffer.insert, hins, Bool.false_eq_true, if_false]

theorem writeBlock_duplicate_step (hashFn : List Nat → List Nat) (d : Disk)
    (id : Nat) (binfo : BlockInfo) (data : List Nat) (e : TorrentEntry)
    (buf : PieceBuffer)
    (hlook : lookupA d.torrents id = some e)
    (hvalid : validBlock e.info binfo data)
    (hbuf : lookupA e.buffers binfo.piece_index = some buf)
    (hdup : buf.hasOffset binfo.offset = true) :
    handleWriteBlock hashFn d id binfo data = d := by
  simp only [handleWriteBlock, hlook, if_pos hvalid, hbuf, Option.getD_some,
    hdup, if_true]

theorem writeBlock_invalid_step (hashFn : List Nat → List Nat) (d : Disk)
    (id : Nat) (binfo : BlockInfo) (data : List Nat) (e : TorrentEntry)
    (hlook : lookupA d.torrents id = some e)
    (hinv : ¬ validBlock e.info binfo data) :
    handleWriteBlock hashFn d id binfo data =
      { d with
        torrents := setA d.torrents id
          { e with
            buffers := removeA e.buffers binfo.piece_index,
            alerts := e.alerts ++
              [TorrentAlert.BatchWrite (.Err .InvalidBlock)] } } := by
  simp only [handleWriteBlock, hlook, if_neg hinv]

theorem feed_fill (hashFn : List Nat → List Nat) (id i plen : Nat)
    (piece : List Nat) (hp : piece.length = plen) :
    ∀ n off (d : Disk) (e : TorrentEntry) (bufBlocks : List (Nat × List Nat)),
      d.running = true →
      lookupA d.torrents id = some e →
      i < e.info.piece_count →
      e.info.piece_length i = plen →
      ((lookupA e.buffers i = none ∧ bufBlocks = []) ∨
        lookupA e.buffers i = some ⟨plen, bufBlocks⟩) →
      (bufBlocks.map Prod.snd).flatten = piece.take off →
      (∀ p ∈ bufBlocks, p.1 < off) →
      off < plen →
      (n - 1) * BLOCK_LEN < plen - off →
      plen - off ≤ n * BLOCK_LEN →
      writeBlocks hashFn d id piece (forEachBlockGo i plen n off) =
        { d with
          torrents := setA d.torrents id
            (finalizePiece hashFn
              { e with
                buffers := setA e.buffers i
                  ⟨plen, bufBlocks ++ slicePairs piece (forEachBlockGo i plen n off)⟩ }
              i
              ⟨plen, bufBlocks ++ slicePairs piece (forEachBlockGo i plen n off)⟩) } := by
  intro n
  induction n with
  | zero =>
    intro off d e bufBlocks _ _ _ _ _ _ _ hoff _ hhi
    exfalso
    omega
  | succ m ih =>
    intro off d e bufBlocks hrun hlook hcount hplen hbuf hflat hkeys hoff hlo hhi
    have hBpos : 0 < BLOCK_LEN := by decide
    set blen := min (plen - off) BLOCK_LEN with hblen
    rw [show BLOCK_LEN = 16384 from rfl] at hlo hhi hblen
    have hgo : forEachBlockGo i plen (m + 1) off =
        BlockInfo.mk i off blen :: forEachBlockGo i plen m (off + blen) := rfl
    have hblen_pos : 0 < blen := by omega
    have hdata_len : (blockData piece (BlockInfo.mk i off blen)).length = blen := by
      simp only [blockData, List.length_take, List.length_drop, hp]
      omega
    have hvalid : validBlock e.info (BlockInfo.mk i off blen)
        (blockData piece (BlockInfo.mk i off blen)) := by
      refine ⟨hcount, hblen_pos, ?_, hdata_len⟩
      show off + blen ≤ e.info.piece_length i
      rw [hplen]
      omega
    have hbuf' : (lookupA e.buffers (BlockInfo.mk i off blen).piece_index = none ∧
        bufBlocks = []) ∨
        lookupA e.buffers (BlockInfo.mk i off blen).piece_index =
          some ⟨e.info.piece_length (BlockInfo.mk i off blen).piece_index, bufBlocks⟩ := by
      show (lookupA e.buffers i = none ∧ bufBlocks = []) ∨
        lookupA e.buffers i = some ⟨e.info.piece_length i, bufBlocks⟩
      rw [hplen]
      exact hbuf
    have hstep := writeBlock_insert_step hashFn d id (BlockInfo.mk i off blen)
      (blockData piece (BlockInfo.mk i off blen)) e bufBlocks hlook hbuf' hvalid hkeys
    simp only at hstep
    rw [hplen] at hstep
    have hbytes : (PieceBuffer.mk plen
        (bufBlocks ++ [(off, blockData piece (BlockInfo.mk i off blen))])).bytesReceived =
        off + blen := by
      rw [bytesReceived_eq]
      rw [List.map_append, List.flatten_append, List.length_append, hflat]
      simp only [List.map_cons, List.map_nil, List.flatten_cons, List.flatten_nil,
        List.append_nil, List.length_take, hdata_len]
      omega
    rw [hgo, writeBlocks_cons, sendCommand_running _ _ _ hrun]
    show writeBlocks hashFn
      (handleWriteBlock hashFn d id (BlockInfo.mk i off blen)
        (blockData piece (BlockInfo.mk i off blen))) id piece
      (forEachBlockGo i plen m (off + blen)) = _
    rw [hstep]
    by_cases hc : off + blen = plen
    · -- the piece is complete: this was the last block
      have hm0 : m = 0 := by omega
      subst hm0
      rw [if_pos (by rw [hbytes, hc])]
      have hrest : forEachBlockGo i plen 0 (off + blen) = [] := rfl
      rw [hrest, writeBlocks_nil]
      simp only [hgo, slicePairs, List.map_cons, List.map_nil]
    · -- more blocks to come: recurse
      rw [if_neg (by rw [hbytes]; exact fun hh => hc hh)]
      have hflat' : ((bufBlocks ++
          [(off, blockData piece (BlockInfo.mk i off blen))]).map Prod.snd).flatten =
          piece.take (off + blen) := by
        rw [List.map_append, List.flatten_append, hflat]
        simp only [List.map_cons, List.map_nil, List.flatten_cons, List.flatten_nil,
          List.append_nil]
        rw [List.take_add]
        rfl
      have hblenB : blen = 16384 := by omega
      have hrec := ih (off + blen)
        ({ d with
            torrents := setA d.torrents id
              { e with
                buffers := setA e.buffers i
                  ⟨plen, bufBlocks ++ [(off, blockData piece (BlockInfo.mk i off blen))]⟩ } })
        ({ e with
            buffers := setA e.buffers i
              ⟨plen, bufBlocks ++ [(off, blockData piece (BlockInfo.mk i off blen))]⟩ })
        (bufBlocks ++ [(off, blockData piece (BlockInfo.mk i off blen))])
        hrun (lookupA_setA_self _ _ _) hcount hplen
        (Or.inr (lookupA_setA_self _ _ _)) hflat'
        (by
          intro p hq
          rcases List.mem_append.mp hq with hq1 | hq1
          · exact Nat.lt_of_lt_of_le (hkeys p hq1) (by omega)
          · have hpq : p = (off, blockData piece (BlockInfo.mk i off blen)) := by
              simpa using hq1
            rw [hpq]
            show off < off + blen
            omega)
        (by omega)
        (by rw [show BLOCK_LEN = 16384 from rfl]; omega)
        (by rw [show BLOCK_LEN = 16384 from rfl]; omega)
      rw [hrec]
      simp only [setA_setA, List.append_assoc]
      simp only [slicePairs, List.map_cons, List.singleton_append]

theorem feed_grow (hashFn : List Nat → List Nat) (id i plen : Nat)
    (piece : List Nat) (hp : piece.length = plen) :
    ∀ n off (d : Disk) (e : TorrentEntry) (bufBlocks : List (Nat × List Nat)),
      1 ≤ n →
      d.running = true →
      lookupA d.torrents id = some e →
      i < e.info.piece_count →
      e.info.piece_length i = plen →
      ((lookupA e.buffers i = none ∧ bufBlocks = []) ∨
        lookupA e.buffers i = some ⟨plen, bufBlocks⟩) →
      (bufBlocks.map Prod.snd).flatten = piece.take off →
      (∀ p ∈ bufBlocks, p.1 < off) →
      n * BLOCK_LEN < plen - off →
      writeBlocks hashFn d id piece (forEachBlockGo i plen n off) =
        { d with
          torrents := setA d.torrents id
            { e with
              buffers := setA e.buffers i
                ⟨plen, bufBlocks ++ slicePairs piece (forEachBlockGo i plen n off)⟩ } } := by
  intro n
  induction n with
  | zero =>
    intro off d e bufBlocks hn
    exact absurd hn (by omega)
  | succ m ih =>
    intro off d e bufBlocks _ hrun hlook hcount hplen hbuf hflat hkeys hfuel
    have hBpos : 0 < BLOCK_LEN := by decide
    set blen := min (plen - off) BLOCK_LEN with hblen
    rw [show BLOCK_LEN = 16384 from rfl] at hfuel hblen
    have hoff : off < plen := by omega
    have hgo : forEachBlockGo i plen (m + 1) off =
        BlockInfo.mk i off blen :: forEachBlockGo i plen m (off + blen) := rfl
    have hblenB : blen = 16384 := by omega
    have hblen_pos : 0 < blen := by omega
    have hdata_len : (blockData piece (BlockInfo.mk i off blen)).length = blen := by
      simp only [blockData, List.length_take, List.length_drop, hp]
      omega
    have hvalid : validBlock e.info (BlockInfo.mk i off blen)
        (blockData piece (BlockInfo.mk i off blen)) := by
      refine ⟨hcount, hblen_pos, ?_, hdata_len⟩
      show off + blen ≤ e.info.piece_length i
      rw [hplen]
      omega
    have hbuf' : (lookupA e.buffers (BlockInfo.mk i off blen).piece_index = none ∧
        bufBlocks = []) ∨
        lookupA e.buffers (BlockInfo.mk i off blen).piece_index =
          some ⟨e.info.piece_length (BlockInfo.mk i off blen).piece_index, bufBlocks⟩ := by
      show (lookupA e.buffers i = none ∧ bufBlocks = []) ∨
        lookupA e.buffers i = some ⟨e.info.piece_length i, bufBlocks⟩
      rw [hplen]
      exact hbuf
    have hstep := writeBlock_insert_step hashFn d id (BlockInfo.mk i off blen)
      (blockData piece (BlockInfo.mk i off blen)) e bufBlocks hlook hbuf' hvalid hkeys
    simp only at hstep
    rw [hplen] at hstep
    have hbytes : (PieceBuffer.mk plen
        (bufBlocks ++ [(off, blockData piece (BlockInfo.mk i off blen))])).bytesReceived =
        off + blen := by
      rw [bytesReceived_eq]
      rw [List.map_append, List.flatten_append, List.length_append, hflat]
      simp only [List.map_cons, List.map_nil, List.flatten_cons, List.flatten_nil,
        List.append_nil, List.length_take, hdata_len]
      omega
    have hflat' : ((bufBlocks ++
        [(off, blockData piece (BlockInfo.mk i off blen))]).map Prod.snd).flatten =
        piece.take (off + blen) := by
      rw [List.map_append, List.flatten_append, hflat]
      simp only [List.map_cons, List.map_nil, List.flatten_cons, List.flatten_nil,
        List.append_nil]
      rw [List.take_add]
      rfl
    have hkeys' : ∀ p ∈ bufBlocks ++
        [(off, blockData piece (BlockInfo.mk i off blen))], p.1 < off + blen := by
      intro p hq
      rcases List.mem_append.mp hq with hq1 | hq1
      · exact Nat.lt_of_lt_of_le (hkeys p hq1) (by omega)
      · have hpq : p = (off, blockData piece (BlockInfo.mk i off blen)) := by
          simpa using hq1
        rw [hpq]
        show off < off + blen
        omega
    rw [hgo, writeBlocks_cons, sendCommand_running _ _ _ hrun]
    show writeBlocks hashFn
      (handleWriteBlock hashFn d id (BlockInfo.mk i off blen)
        (blockData piece (BlockInfo.mk i off blen))) id piece
      (forEachBlockGo i plen m (off + blen)) = _
    rw [hstep]
    rw [if_neg (by rw [hbytes]; omega)]
    by_cases hm : m = 0
    · subst hm
      have hrest : forEachBlockGo i plen 0 (off + blen) = [] := rfl
      rw [hrest, writeBlocks_nil]
      simp only [slicePairs, List.map_cons, List.map_nil]
    · have hrec := ih (off + blen)
        ({ d with
            torrents := setA d.torrents id
              { e with
                buffers := setA e.buffers i
                  ⟨plen, bufBlocks ++ [(off, blockData piece (BlockInfo.mk i off blen))]⟩ } })
        ({ e with
            buffers := setA e.buffers i
              ⟨plen, bufBlocks ++ [(off, blockData piece (BlockInfo.mk i off blen))]⟩ })
        (bufBlocks ++ [(off, blockData piece (BlockInfo.mk i off blen))])
        (by omega) hrun (lookupA_setA_self _ _ _) hcount hplen
        (Or.inr (lookupA_setA_self _ _ _)) hflat' hkeys'
        (by rw [show BLOCK_LEN = 16384 from rfl]; omega)
      rw [hrec]
      simp only [setA_setA, List.append_assoc]
      simp only [slicePairs, List.map_cons, List.singleton_append]

theorem slicePairs_snd (piece : List Nat) (bs : List BlockInfo) :
    (slicePairs piece bs).map Prod.snd = bs.map (fun b => blockData piece b) := by
  simp [slicePairs, List.map_map]

theorem assemble_canonical (piece : List Nat) (i : Nat)
    (hfull : piece.length ≤ block_count piece.length * BLOCK_LEN) :
    (PieceBuffer.mk piece.length
      (slicePairs piece (forEachBlockGo i piece.length (block_count piece.length) 0))).assemble
      = piece := by
  simp only [PieceBuffer.assemble]
  rw [slicePairs_snd]
  rw [flatten_blockData piece i piece.length rfl _ 0 (by omega)]
  exact List.drop_zero piece

theorem commit_piece (hashFn : List Nat → List Nat) (d : Disk) (id i : Nat)
    (piece : List Nat) (e : TorrentEntry)
    (hrun : d.running = true)
    (hlook : lookupA d.torrents id = some e)
    (hcount : i < e.info.piece_count)
    (hplen : piece.length = e.info.piece_length i)
    (hpos : 0 < piece.length)
    (hfresh : lookupA e.buffers i = none)
    (hhash : hashFn piece = expectedHash e.piece_hashes i) :
    writeBlocks hashFn d id piece (for_each_block i piece.length) =
      { d with
        torrents := setA d.torrents id
          { e with
            file := some (writeToFile e.file e.info.download_len
              (i * e.info.piece_len) piece),
            alerts := e.alerts ++ [TorrentAlert.BatchWrite (.Ok
              { blocks := for_each_block i piece.length,
                is_piece_valid := some true })] } } := by
  have hbc := block_count_bounds piece.length hpos
  have hff := feed_fill hashFn id i piece.length piece rfl
    (block_count piece.length) 0 d e [] hrun hlook hcount hplen.symm
    (Or.inl ⟨hfresh, rfl⟩) (by simp) (by simp) hpos
    (by omega) (by omega)
  simp only [for_each_block]
  rw [hff]
  simp only [List.nil_append]
  simp only [finalizePiece]
  rw [assemble_canonical piece i (by omega)]
  rw [if_pos hhash]
  rw [slicePairs_map_back piece i piece.length rfl]
  rw [removeA_setA, removeA_lookup_none _ _ hfresh]

theorem reject_piece (hashFn : List Nat → List Nat) (d : Disk) (id i : Nat)
    (piece : List Nat) (e : TorrentEntry)
    (hrun : d.running = true)
    (hlook : lookupA d.torrents id = some e)
    (hcount : i < e.info.piece_count)
    (hplen : piece.length = e.info.piece_length i)
    (hpos : 0 < piece.length)
    (hfresh : lookupA e.buffers i = none)
    (hhash : hashFn piece ≠ expectedHash e.piece_hashes i) :
    writeBlocks hashFn d id piece (for_each_block i piece.length) =
      { d with
        torrents := setA d.torrents id
          { e with
            alerts := e.alerts ++ [TorrentAlert.BatchWrite (.Ok
              { blocks := [], is_piece_valid := some false })] } } := by
  have hbc := block_count_bounds piece.length hpos
  have hff := feed_fill hashFn id i piece.length piece rfl
    (block_count piece.length) 0 d e [] hrun hlook hcount hplen.symm
    (Or.inl ⟨hfresh, rfl⟩) (by simp) (by simp) hpos
    (by omega) (by omega)
  simp only [for_each_block]
  rw [hff]
  simp only [List.nil_append]
  simp only [finalizePiece]
  rw [assemble_canonical piece i (by omega)]
  rw [if_neg hhash]
  rw [removeA_setA, removeA_lookup_none _ _ hfresh]

/-- C1: for every allocated torrent and every fresh piece `i < N`, if every
block of piece `i` is submitted via `write_block` with its correct payload
(the piece image hashes to the expected digest), then exactly one per-torrent
alert is emitted for the piece, it is `BatchWrite (Ok _)` with
`is_piece_valid = some true`, and its `blocks` list contains the `BlockInfo`
of every block of that piece. -/
theorem C1_piece_validity_roundtrip (hashFn : List Nat → List Nat) (d : Disk)
    (id i : Nat) (piece : List Nat) (e : TorrentEntry)
    (hrun : d.running = true)
    (hlook : lookupA d.torrents id = some e)
    (hcount : i < e.info.piece_count)
    (hplen : piece.length = e.info.piece_length i)
    (hpos : 0 < piece.length)
    (hfresh : lookupA e.buffers i = none)
    (hhash : hashFn piece = expectedHash e.piece_hashes i) :
    ∃ e' bw,
      lookupA (writeBlocks hashFn d id piece
        (for_each_block i piece.length)).torrents id = some e' ∧
      e'.alerts = e.alerts ++ [TorrentAlert.BatchWrite (.Ok bw)] ∧
      bw.is_piece_valid = some true ∧
      ∀ b ∈ for_each_block i piece.length, b ∈ bw.blocks := by
  rw [commit_piece hashFn d id i piece e hrun hlook hcount hplen hpos hfresh hhash]
  exact ⟨_, ⟨for_each_block i piece.length, some true⟩,
    lookupA_setA_self _ _ _, rfl, rfl, fun b hb => hb⟩

/-- Witness for C1 at the concrete demonstration torrent. -/
theorem C1_piece_validity_roundtrip_witness :
    ∃ e' bw,
      lookupA (writeBlocks demoHash demoDisk 0 [1, 2, 3]
        (for_each_block 0 ([1, 2, 3] : List Nat).length)).torrents 0 = some e' ∧
      e'.alerts = demoEntry.alerts ++ [TorrentAlert.BatchWrite (.Ok bw)] ∧
      bw.is_piece_valid = some true ∧
      ∀ b ∈ for_each_block 0 ([1, 2, 3] : List Nat).length, b ∈ bw.blocks :=
  C1_piece_validity_roundtrip demoHash demoDisk 0 0 [1, 2, 3] demoEntry rfl
    (by decide) (by decide) (by decide) (by decide) rfl (by decide)

/-- C2: if the assembled bytes of piece `i` hash to a digest different from
the expected one, the emitted alert is `BatchWrite (Ok _)` with
`is_piece_valid = some false` and an empty `blocks` list, and the torrent's
file is not modified at all: nothing of a rejected piece reaches disk. -/
theorem C2_no_write_on_invalid (hashFn : List Nat → List Nat) (d : Disk)
    (id i : Nat) (piece : List Nat) (e : TorrentEntry)
    (hrun : d.running = true)
    (hlook : lookupA d.torrents id = some e)
    (hcount : i < e.info.piece_count)
    (hplen : piece.length = e.info.piece_length i)
    (hpos : 0 < piece.length)
    (hfresh : lookupA e.buffers i = none)
    (hhash : hashFn piece ≠ expectedHash e.piece_hashes i) :
    ∃ e',
      lookupA (writeBlocks hashFn d id piece
        (for_each_block i piece.length)).torrents id = some e' ∧
      e'.alerts = e.alerts ++ [TorrentAlert.BatchWrite (.Ok
        { blocks := [], is_piece_valid := some false })] ∧
      e'.file = e.file ∧
      e'.buffers = e.buffers := by
  rw [reject_piece hashFn d id i piece e hrun hlook hcount hplen hpos hfresh hhash]
  exact ⟨_, lookupA_setA_self _ _ _, rfl, rfl, rfl⟩

/-- Witness for C2: piece 0 submitted with corrupted bytes. -/
theorem C2_no_write_on_invalid_witness :
    ∃ e',
      lookupA (writeBlocks demoHash demoDisk 0 [9, 9, 9]
        (for_each_block 0 ([9, 9, 9] : List Nat).length)).torrents 0 = some e' ∧
      e'.alerts = demoEntry.alerts ++ [TorrentAlert.BatchWrite (.Ok
        { blocks := [], is_piece_valid := some false })] ∧
      e'.file = demoEntry.file ∧
      e'.buffers = demoEntry.buffers :=
  C2_no_write_on_invalid demoHash demoDisk 0 0 [9, 9, 9] demoEntry rfl
    (by decide) (by decide) (by decide) (by decide) rfl (by decide)

/-- C6: when the last-piece length is strictly smaller than the uniform piece
length, piece `N − 1` is finalised exactly when its accumulated bytes reach
`L′`: feeding all canonical blocks of the `L′`-byte image yields one alert,
accepted iff the digest of the `L′`-byte image matches the expected hash,
while any canonical prefix of full blocks covering fewer than `L′` bytes
yields no alert at all. -/
theorem C6_last_piece_length (hashFn : List Nat → List Nat) (d : Disk)
    (id i : Nat) (piece : List Nat) (e : TorrentEntry)
    (hrun : d.running = true)
    (hlook : lookupA d.torrents id = some e)
    (hlast : i + 1 = e.info.piece_count)
    (hshort : e.info.last_piece_len < e.info.piece_len)
    (hplen : piece.length = e.info.last_piece_len)
    (hpos : 0 < piece.length)
    (hfresh : lookupA e.buffers i = none) :
    (∃ e' bw,
      lookupA (writeBlocks hashFn d id piece
        (for_each_block i piece.length)).torrents id = some e' ∧
      e'.alerts = e.alerts ++ [TorrentAlert.BatchWrite (.Ok bw)] ∧
      (bw.is_piece_valid = some true ↔
        hashFn piece = expectedHash e.piece_hashes i)) ∧
    (∀ m, 1 ≤ m → m * BLOCK_LEN < piece.length →
      ∃ e'',
        lookupA (writeBlocks hashFn d id piece
          (forEachBlockGo i piece.length m 0)).torrents id = some e'' ∧
        e''.alerts = e.alerts) := by
  have hcount : i < e.info.piece_count := by omega
  have hplen' : piece.length = e.info.piece_length i := by
    rw [StorageInfo.piece_length, if_pos hlast]
    exact hplen
  constructor
  · by_cases hc : hashFn piece = expectedHash e.piece_hashes i
    · rw [commit_piece hashFn d id i piece e hrun hlook hcount hplen' hpos hfresh hc]
      refine ⟨_, ⟨for_each_block i piece.length, some true⟩,
        lookupA_setA_self _ _ _, rfl, ?_⟩
      simp [hc]
    · rw [reject_piece hashFn d id i piece e hrun hlook hcount hplen' hpos hfresh hc]
      refine ⟨_, ⟨[], some false⟩, lookupA_setA_self _ _ _, rfl, ?_⟩
      simp [hc]
  · intro m hm hmfuel
    rw [feed_grow hashFn id i piece.length piece rfl m 0 d e [] hm hrun hlook
      hcount hplen'.symm (Or.inl ⟨hfresh, rfl⟩) (by simp) (by simp) (by omega)]
    exact ⟨_, lookupA_setA_self _ _ _, rfl⟩

/-- Witness for C6: the demonstration torrent's last piece (`L′ = 2 < 3 = L`),
accepted with the matching image. -/
theorem C6_last_piece_length_witness :
    (∃ e' bw,
      lookupA (writeBlocks demoHash demoDisk 0 [4, 5]
        (for_each_block 1 ([4, 5] : List Nat).length)).torrents 0 = some e' ∧
      e'.alerts = demoEntry.alerts ++ [TorrentAlert.BatchWrite (.Ok bw)] ∧
      (bw.is_piece_valid = some true ↔
        demoHash [4, 5] = expectedHash demoEntry.piece_hashes 1)) ∧
    (∀ m, 1 ≤ m → m * BLOCK_LEN < ([4, 5] : List Nat).length →
      ∃ e'',
        lookupA (writeBlocks demoHash demoDisk 0 [4, 5]
          (forEachBlockGo 1 ([4, 5] : List Nat).length m 0)).torrents 0 = some e'' ∧
        e''.alerts = demoEntry.alerts) :=
  C6_last_piece_length demoHash demoDisk 0 1 [4, 5] demoEntry rfl
    (by decide) (by decide) (by decide) (by decide) (by decide) rfl

theorem lookupA_mem {α : Type} (l : List (Nat × α)) (k : Nat) (v : α)
    (h : lookupA l k = some v) : (k, v) ∈ l := by
  induction l with
  | nil => simp [lookupA] at h
  | cons p rest ih =>
    obtain ⟨k0, v0⟩ := p
    by_cases hk : k0 = k
    · subst hk
      simp [lookupA] at h
      simp [h]
    · simp [lookupA, hk] at h
      exact List.mem_cons_of_mem _ (ih h)

theorem handleNewTorrent_dup (d : Disk) (id : Nat) (info : StorageInfo)
    (hashes : List Nat) (e : TorrentEntry)
    (h : lookupA d.torrents id = some e) :
    handleNewTorrent d id info hashes =
      { d with alerts := d.alerts ++
          [Alert.TorrentAllocation (.Err .AlreadyExists)] } := by
  unfold handleNewTorrent
  rw [h]

theorem handleNewTorrent_ok (d : Disk) (id : Nat) (info : StorageInfo)
    (hashes : List Nat)
    (h : lookupA d.torrents id = none)
    (hm : hashes.length = info.piece_count * 20) :
    handleNewTorrent d id info hashes =
      { d with
        torrents := setA d.torrents id
          { info := info, piece_hashes := hashes, buffers := [], file := none,
            alerts := [] },
        alerts := d.alerts ++ [Alert.TorrentAllocation (.Ok id)] } := by
  unfold handleNewTorrent
  rw [h]
  simp only [if_pos hm]

theorem handleNewTorrent_badmeta (d : Disk) (id : Nat) (info : StorageInfo)
    (hashes : List Nat)
    (h : lookupA d.torrents id = none)
    (hm : hashes.length ≠ info.piece_count * 20) :
    handleNewTorrent d id info hashes =
      { d with alerts := d.alerts ++
          [Alert.TorrentAllocation (.Err .InvalidMetadata)] } := by
  unfold handleNewTorrent
  rw [h]
  simp only [if_neg hm]

theorem handleWriteBlock_shape (hashFn : List Nat → List Nat) (d : Disk)
    (id : Nat) (binfo : BlockInfo) (data : List Nat) :
    handleWriteBlock hashFn d id binfo data = d ∨
    ∃ e e', lookupA d.torrents id = some e ∧
      handleWriteBlock hashFn d id binfo data =
        { d with torrents := setA d.torrents id e' } ∧
      (e'.alerts = e.alerts ∨
       e'.alerts = e.alerts ++ [TorrentAlert.BatchWrite (.Err .InvalidBlock)] ∨
       (∃ blocks, e'.alerts = e.alerts ++ [TorrentAlert.BatchWrite (.Ok
          { blocks := blocks, is_piece_valid := some true })] ∧
          ∀ b ∈ blocks, b.piece_index = binfo.piece_index) ∨
       e'.alerts = e.alerts ++ [TorrentAlert.BatchWrite (.Ok
          { blocks := [], is_piece_valid := some false })]) := by
  unfold handleWriteBlock
  split
  · exact Or.inl rfl
  next e hl =>
    split
    next hv =>
      dsimp only
      split
      next hdup => exact Or.inl rfl
      next hdup =>
        split
        next hbytes =>
          unfold finalizePiece
          split
          next hhash =>
            refine Or.inr ⟨e, _, hl, rfl, Or.inr (Or.inr (Or.inl ⟨_, rfl, ?_⟩))⟩
            intro b hb
            simp only [List.mem_map] at hb
            obtain ⟨p, hp, hpb⟩ := hb
            rw [← hpb]
          next hhash =>
            exact Or.inr ⟨e, _, hl, rfl, Or.inr (Or.inr (Or.inr rfl))⟩
        next hbytes =>
          exact Or.inr ⟨e, _, hl, rfl, Or.inl rfl⟩
    next hv =>
      exact Or.inr ⟨e, _, hl, rfl, Or.inr (Or.inl rfl)⟩

theorem handleCommand_torrents_persist (hashFn : List Nat → List Nat)
    (d : Disk) (c : Command) (id : Nat) (e : TorrentEntry)
    (h : lookupA d.torrents id = some e) :
    ∃ e', lookupA (handleCommand hashFn d c).torrents id = some e' := by
  cases c with
  | NewTorrent id2 info2 hashes2 =>
    show ∃ e', lookupA (handleNewTorrent d id2 info2 hashes2).torrents id = some e'
    cases hl : lookupA d.torrents id2 with
    | some e2 => rw [handleNewTorrent_dup d id2 info2 hashes2 e2 hl]; exact ⟨e, h⟩
    | none =>
      by_cases hm : hashes2.length = info2.piece_count * 20
      · rw [handleNewTorrent_ok d id2 info2 hashes2 hl hm]
        have hne : id ≠ id2 := by
          intro hh
          rw [hh, hl] at h
          exact Option.noConfusion h
        exact ⟨e, by rw [lookupA_setA_ne _ _ _ _ hne]; exact h⟩
      · rw [handleNewTorrent_badmeta d id2 info2 hashes2 hl hm]
        exact ⟨e, h⟩
  | WriteBlock id2 binfo data =>
    show ∃ e', lookupA (handleWriteBlock hashFn d id2 binfo data).torrents id = some e'
    rcases handleWriteBlock_shape hashFn d id2 binfo data with hs | ⟨e0, e1, _, hs, _⟩
    · rw [hs]; exact ⟨e, h⟩
    · rw [hs]
      by_cases hid : id = id2
      · subst hid
        exact ⟨e1, lookupA_setA_self _ _ _⟩
      · exact ⟨e, by rw [lookupA_setA_ne _ _ _ _ hid]; exact h⟩
  | Shutdown => exact ⟨e, h⟩

theorem sendCommand_torrents_persist (hashFn : List Nat → List Nat)
    (d : Disk) (c : Command) (id : Nat) (e : TorrentEntry)
    (h : lookupA d.torrents id = some e) :
    ∃ e', lookupA (sendCommand hashFn d c).1.torrents id = some e' := by
  unfold sendCommand
  by_cases hr : d.running = true
  · simp only [hr, if_true]
    exact handleCommand_torrents_persist hashFn d c id e h
  · simp only [hr, if_false]
    exact ⟨e, h⟩

theorem runCommands_torrents_persist (hashFn : List Nat → List Nat)
    (cs : List Command) : ∀ (d : Disk) (id : Nat) (e : TorrentEntry),
    lookupA d.torrents id = some e →
    ∃ e', lookupA (runCommands hashFn d cs).torrents id = some e' := by
  induction cs with
  | nil => intro d id e h; exact ⟨e, h⟩
  | cons c rest ih =>
    intro d id e h
    obtain ⟨e1, h1⟩ := sendCommand_torrents_persist hashFn d c id e h
    exact ih _ id e1 h1

theorem write_block_global_alerts (hashFn : List Nat → List Nat) (d : Disk)
    (id : Nat) (binfo : BlockInfo) (data : List Nat) :
    (write_block hashFn d id binfo data).1.alerts = d.alerts := by
  unfold write_block sendCommand
  by_cases hr : d.running = true
  · simp only [hr, if_true]
    show (handleWriteBlock hashFn d id binfo data).alerts = d.alerts
    rcases handleWriteBlock_shape hashFn d id binfo data with hs | ⟨_, _, _, hs, _⟩ <;>
      rw [hs]
  · simp [hr]

theorem shutdown_global_alerts (hashFn : List Nat → List Nat) (d : Disk) :
    (shutdown hashFn d).1.alerts = d.alerts := by
  unfold shutdown sendCommand
  by_cases hr : d.running = true
  · simp only [hr, if_true]
    rfl
  · simp [hr]

/-- C3: in any sequence of commands, the first `NewTorrent` for an id (with
well-formed metadata) succeeds and registers the torrent; every subsequent
`NewTorrent` with the same id — whatever commands were interleaved — emits
`TorrentAllocation (Err AlreadyExists)` on the global channel and leaves the
whole state otherwise unchanged; and a duplicate id is the only source of
`AlreadyExists`: an allocation that reports it had the id registered, and no
other handle operation ever emits a global alert. -/
theorem C3_allocation_uniqueness (hashFn : List Nat → List Nat) (d : Disk)
    (id : Nat) (info : StorageInfo) (hashes : List Nat)
    (hrun : d.running = true)
    (hfresh : lookupA d.torrents id = none)
    (hmeta : hashes.length = info.piece_count * 20) :
    ((allocate_new_torrent hashFn d id info hashes).1.alerts =
        d.alerts ++ [Alert.TorrentAllocation (.Ok id)] ∧
      (∃ e, lookupA (allocate_new_torrent hashFn d id info hashes).1.torrents
        id = some e)) ∧
    (∀ (cs : List Command) (info2 : StorageInfo) (hashes2 : List Nat),
      (runCommands hashFn (allocate_new_torrent hashFn d id info hashes).1
        cs).running = true →
      (allocate_new_torrent hashFn
          (runCommands hashFn (allocate_new_torrent hashFn d id info hashes).1 cs)
          id info2 hashes2).1 =
        { runCommands hashFn (allocate_new_torrent hashFn d id info hashes).1 cs
          with
          alerts := (runCommands hashFn
              (allocate_new_torrent hashFn d id info hashes).1 cs).alerts ++
            [Alert.TorrentAllocation (.Err .AlreadyExists)] }) ∧
    (∀ (d2 : Disk) (id2 : Nat) (info2 : StorageInfo) (hashes2 : List Nat),
      d2.running = true →
      (allocate_new_torrent hashFn d2 id2 info2 hashes2).1.alerts =
        d2.alerts ++ [Alert.TorrentAllocation (.Err .AlreadyExists)] →
      ∃ e, lookupA d2.torrents id2 = some e) ∧
    (∀ (d2 : Disk) (id2 : Nat) (binfo : BlockInfo) (data : List Nat),
      (write_block hashFn d2 id2 binfo data).1.alerts = d2.alerts) ∧
    (∀ d2 : Disk, (shutdown hashFn d2).1.alerts = d2.alerts) := by
  have halloc : (allocate_new_torrent hashFn d id info hashes).1 =
      { d with
        torrents := setA d.torrents id
          { info := info, piece_hashes := hashes, buffers := [], file := none,
            alerts := [] },
        alerts := d.alerts ++ [Alert.TorrentAllocation (.Ok id)] } := by
    unfold allocate_new_torrent
    rw [sendCommand_running _ _ _ hrun]
    exact handleNewTorrent_ok d id info hashes hfresh hmeta
  refine ⟨⟨by rw [halloc], ⟨_, by rw [halloc]; exact lookupA_setA_self _ _ _⟩⟩,
    ?_, ?_, fun d2 id2 binfo data => write_block_global_alerts hashFn d2 id2 binfo data,
    fun d2 => shutdown_global_alerts hashFn d2⟩
  · intro cs info2 hashes2 hrun2
    obtain ⟨e2, he2⟩ := runCommands_torrents_persist hashFn cs
      (allocate_new_torrent hashFn d id info hashes).1 id
      { info := info, piece_hashes := hashes, buffers := [], file := none,
        alerts := [] }
      (by rw [halloc]; exact lookupA_setA_self _ _ _)
    have hsend := sendCommand_running hashFn
      (runCommands hashFn (allocate_new_torrent hashFn d id info hashes).1 cs)
      (Command.NewTorrent id info2 hashes2) hrun2
    show (sendCommand hashFn
      (runCommands hashFn (allocate_new_torrent hashFn d id info hashes).1 cs)
      (Command.NewTorrent id info2 hashes2)).1 = _
    rw [hsend]
    exact handleNewTorrent_dup _ id info2 hashes2 e2 he2
  · intro d2 id2 info2 hashes2 hrun2 halert
    cases hl : lookupA d2.torrents id2 with
    | some e2 => exact ⟨e2, rfl⟩
    | none =>
      exfalso
      have halert2 : (handleNewTorrent d2 id2 info2 hashes2).alerts =
          d2.alerts ++ [Alert.TorrentAllocation (.Err .AlreadyExists)] := by
        rw [← halert]
        show _ = (sendCommand hashFn d2 (Command.NewTorrent id2 info2 hashes2)).1.alerts
        rw [sendCommand_running _ _ _ hrun2]
        rfl
      by_cases hm : hashes2.length = info2.piece_count * 20
      · rw [handleNewTorrent_ok d2 id2 info2 hashes2 hl hm] at halert2
        simp at halert2
      · rw [handleNewTorrent_badmeta d2 id2 info2 hashes2 hl hm] at halert2
        simp at halert2

/-- Witness for C3: a fresh allocation on the demonstration environment. -/
theorem C3_allocation_uniqueness_witness :
    ((allocate_new_torrent demoHash Disk.new 0 demoInfo demoHashes).1.alerts =
        Disk.new.alerts ++ [Alert.TorrentAllocation (.Ok 0)] ∧
      (∃ e, lookupA (allocate_new_torrent demoHash Disk.new 0 demoInfo
        demoHashes).1.torrents 0 = some e)) ∧
    (∀ (cs : List Command) (info2 : StorageInfo) (hashes2 : List Nat),
      (runCommands demoHash (allocate_new_torrent demoHash Disk.new 0 demoInfo
        demoHashes).1 cs).running = true →
      (allocate_new_torrent demoHash
          (runCommands demoHash (allocate_new_torrent demoHash Disk.new 0
            demoInfo demoHashes).1 cs) 0 info2 hashes2).1 =
        { runCommands demoHash (allocate_new_torrent demoHash Disk.new 0
            demoInfo demoHashes).1 cs with
          alerts := (runCommands demoHash (allocate_new_torrent demoHash
              Disk.new 0 demoInfo demoHashes).1 cs).alerts ++
            [Alert.TorrentAllocation (.Err .AlreadyExists)] }) ∧
    (∀ (d2 : Disk) (id2 : Nat) (info2 : StorageInfo) (hashes2 : List Nat),
      d2.running = true →
      (allocate_new_torrent demoHash d2 id2 info2 hashes2).1.alerts =
        d2.alerts ++ [Alert.TorrentAllocation (.Err .AlreadyExists)] →
      ∃ e, lookupA d2.torrents id2 = some e) ∧
    (∀ (d2 : Disk) (id2 : Nat) (binfo : BlockInfo) (data : List Nat),
      (write_block demoHash d2 id2 binfo data).1.alerts = d2.alerts) ∧
    (∀ d2 : Disk, (shutdown demoHash d2).1.alerts = d2.alerts) :=
  C3_allocation_uniqueness demoHash Disk.new 0 demoInfo demoHashes rfl rfl
    (by decide)

theorem writePieces_commit (hashFn : List Nat → List Nat) (id : Nat) :
    ∀ (ps : List (List Nat)) (start : Nat) (d : Disk) (e : TorrentEntry),
      d.running = true →
      lookupA d.torrents id = some e →
      e.buffers = [] →
      start + ps.length ≤ e.info.piece_count →
      (∀ k (hk : k < ps.length),
        0 < (ps.get ⟨k, hk⟩).length ∧
        (ps.get ⟨k, hk⟩).length = e.info.piece_length (start + k) ∧
        hashFn (ps.get ⟨k, hk⟩) = expectedHash e.piece_hashes (start + k)) →
      ∃ fl,
        writePiecesFrom hashFn id d start ps =
          { d with
            torrents := setA d.torrents id
              { e with
                file := fl,
                alerts := e.alerts ++ (List.range' start ps.length).map
                  (fun j => TorrentAlert.BatchWrite (.Ok
                    { blocks := for_each_block j (e.info.piece_length j),
                      is_piece_valid := some true })) } } := by
  intro ps
  induction ps with
  | nil =>
    intro start d e hrun hlook hbufs hcount hpieces
    refine ⟨e.file, ?_⟩
    show d = _
    simp only [List.length_nil, List.range', List.map_nil, List.append_nil]
    rw [setA_lookup_eq _ _ _ hlook]
  | cons p rest ih =>
    intro start d e hrun hlook hbufs hcount hpieces
    have hp0 := hpieces 0 (by simp)
    have hplen0 : p.length = e.info.piece_length (start + 0) := hp0.2.1
    have hpos0 : 0 < p.length := hp0.1
    have hhash0 : hashFn p = expectedHash e.piece_hashes (start + 0) := hp0.2.2
    rw [Nat.add_zero] at hplen0 hhash0
    have hcommit := commit_piece hashFn d id start p e hrun hlook
      (by simp at hcount; omega) hplen0 hpos0 (by rw [hbufs]; rfl) hhash0
    obtain ⟨fl, hres⟩ := ih (start + 1)
      ({ d with
          torrents := setA d.torrents id
            { e with
              file := some (writeToFile e.file e.info.download_len
                (start * e.info.piece_len) p),
              alerts := e.alerts ++ [TorrentAlert.BatchWrite (.Ok
                { blocks := for_each_block start p.length,
                  is_piece_valid := some true })] } })
      ({ e with
          file := some (writeToFile e.file e.info.download_len
            (start * e.info.piece_len) p),
          alerts := e.alerts ++ [TorrentAlert.BatchWrite (.Ok
            { blocks := for_each_block start p.length,
              is_piece_valid := some true })] })
      hrun (lookupA_setA_self _ _ _) hbufs
      (by simp at hcount ⊢; omega)
      (by
        intro k hk
        have := hpieces (k + 1) (by simp; omega)
        rw [show start + 1 + k = start + (k + 1) from by omega]
        exact this)
    refine ⟨fl, ?_⟩
    show writePiecesFrom hashFn id
      (writeBlocks hashFn d id p (for_each_block start p.length))
      (start + 1) rest = _
    rw [hcommit, hres]
    simp only [setA_setA, List.append_assoc]
    have hrange : List.range' start (p :: rest).length =
        start :: List.range' (start + 1) rest.length := rfl
    rw [hrange]
    simp only [List.map_cons, List.singleton_append, hplen0]

/-- C7: the disk task consumes a torrent's `WriteBlock` commands strictly in
enqueue order and appends its alerts in emission order, so writing pieces
`0..N−1` to completion in ascending order yields exactly one successful
`BatchWrite` alert per piece, delivered in ascending piece order. -/
theorem C7_alert_ordering (hashFn : List Nat → List Nat) (d : Disk) (id : Nat)
    (pieces : List (List Nat)) (e : TorrentEntry)
    (hrun : d.running = true)
    (hlook : lookupA d.torrents id = some e)
    (hbufs : e.buffers = [])
    (hcount : pieces.length = e.info.piece_count)
    (hpieces : ∀ k (hk : k < pieces.length),
      0 < (pieces.get ⟨k, hk⟩).length ∧
      (pieces.get ⟨k, hk⟩).length = e.info.piece_length k ∧
      hashFn (pieces.get ⟨k, hk⟩) = expectedHash e.piece_hashes k) :
    ∃ e',
      lookupA (writePiecesFrom hashFn id d 0 pieces).torrents id = some e' ∧
      e'.alerts = e.alerts ++ (List.range e.info.piece_count).map
        (fun j => TorrentAlert.BatchWrite (.Ok
          { blocks := for_each_block j (e.info.piece_length j),
            is_piece_valid := some true })) := by
  obtain ⟨fl, hres⟩ := writePieces_commit hashFn id pieces 0 d e hrun hlook
    hbufs (by omega) (by intro k hk; simpa using hpieces k hk)
  rw [hres]
  refine ⟨_, lookupA_setA_self _ _ _, ?_⟩
  show e.alerts ++ _ = e.alerts ++ _
  rw [List.range_eq_range', hcount]

/-- Witness for C7: both demonstration pieces written in ascending order give
the two successful alerts in ascending piece order. -/
theorem C7_alert_ordering_witness :
    ∃ e',
      lookupA (writePiecesFrom demoHash 0 demoDisk 0
        [[1, 2, 3], [4, 5]]).torrents 0 = some e' ∧
      e'.alerts = demoEntry.alerts ++
        (List.range demoEntry.info.piece_count).map
          (fun j => TorrentAlert.BatchWrite (.Ok
            { blocks := for_each_block j (demoEntry.info.piece_length j),
              is_piece_valid := some true })) :=
  C7_alert_ordering demoHash demoDisk 0 [[1, 2, 3], [4, 5]] demoEntry rfl
    (by decide) rfl (by decide) (by decide)

/-- C8: a `WriteBlock` on an allocated torrent whose `BlockInfo` is invalid —
piece index out of range, block range exceeding the piece length, or payload
length disagreeing with the declared length — drops that piece's buffer (the
piece is marked failed) and emits `BatchWrite (Err InvalidBlock)` on the
torrent's channel, leaving the file, all other pieces' buffers, all other
torrents and the global channel untouched. -/
theorem C8_invalid_block (hashFn : List Nat → List Nat) (d : Disk) (id : Nat)
    (binfo : BlockInfo) (data : List Nat) (e : TorrentEntry)
    (hrun : d.running = true)
    (hlook : lookupA d.torrents id = some e)
    (hbad : e.info.piece_count ≤ binfo.piece_index ∨
      e.info.piece_length binfo.piece_index < binfo.offset + binfo.len ∨
      data.length ≠ binfo.len) :
    ∃ e',
      lookupA (write_block hashFn d id binfo data).1.torrents id = some e' ∧
      e'.alerts = e.alerts ++ [TorrentAlert.BatchWrite (.Err .InvalidBlock)] ∧
      e'.buffers = removeA e.buffers binfo.piece_index ∧
      e'.file = e.file ∧
      (∀ j, j ≠ binfo.piece_index →
        lookupA e'.buffers j = lookupA e.buffers j) ∧
      (∀ id2, id2 ≠ id →
        lookupA (write_block hashFn d id binfo data).1.torrents id2 =
          lookupA d.torrents id2) ∧
      (write_block hashFn d id binfo data).1.alerts = d.alerts := by
  have hinv : ¬ validBlock e.info binfo data := by
    unfold validBlock
    rintro ⟨h1, h2, h3, h4⟩
    rcases hbad with h | h | h <;> omega
  have hwb : (write_block hashFn d id binfo data).1 =
      handleWriteBlock hashFn d id binfo data := by
    unfold write_block
    rw [sendCommand_running _ _ _ hrun]
    rfl
  rw [hwb, writeBlock_invalid_step hashFn d id binfo data e hlook hinv]
  refine ⟨_, lookupA_setA_self _ _ _, rfl, rfl, rfl, ?_, ?_, rfl⟩
  · intro j hj
    exact lookupA_removeA_ne _ _ _ hj
  · intro id2 hid2
    exact lookupA_setA_ne _ _ _ _ hid2

/-- Witness for C8: a block naming piece 5 of the two-piece demonstration
torrent. -/
theorem C8_invalid_block_witness :
    ∃ e',
      lookupA (write_block demoHash demoDisk 0 (BlockInfo.mk 5 0 1)
        [7]).1.torrents 0 = some e' ∧
      e'.alerts = demoEntry.alerts ++
        [TorrentAlert.BatchWrite (.Err .InvalidBlock)] ∧
      e'.buffers = removeA demoEntry.buffers (BlockInfo.mk 5 0 1).piece_index ∧
      e'.file = demoEntry.file ∧
      (∀ j, j ≠ (BlockInfo.mk 5 0 1).piece_index →
        lookupA e'.buffers j = lookupA demoEntry.buffers j) ∧
      (∀ id2, id2 ≠ 0 →
        lookupA (write_block demoHash demoDisk 0 (BlockInfo.mk 5 0 1)
          [7]).1.torrents id2 = lookupA demoDisk.torrents id2) ∧
      (write_block demoHash demoDisk 0 (BlockInfo.mk 5 0 1) [7]).1.alerts =
        demoDisk.alerts :=
  C8_invalid_block demoHash demoDisk 0 (BlockInfo.mk 5 0 1) [7] demoEntry rfl
    (by decide) (by decide)

theorem runCommands_stopped (hashFn : List Nat → List Nat)
    (cs : List Command) : ∀ d : Disk, d.running = false →
    runCommands hashFn d cs = d := by
  induction cs with
  | nil => intro d _; rfl
  | cons c rest ih =>
    intro d h
    have hs : (sendCommand hashFn d c).1 = d := by simp [sendCommand, h]
    show runCommands hashFn (sendCommand hashFn d c).1 rest = d
    rw [hs]
    exact ih d h

theorem shutdown_stops (hashFn : List Nat → List Nat) (d : Disk) :
    (shutdown hashFn d).1.running = false := by
  by_cases hr : d.running = true
  · simp [shutdown, sendCommand, hr, handleCommand]
  · have hf : d.running = false := by revert hr; cases d.running <;> simp
    simp [shutdown, sendCommand, hf]

/-- C9: every `DiskHandle` operation is a non-blocking enqueue that returns
`Ok` whenever the command inbox is open, regardless of payload contents, and
fails with `ChannelClosed` — leaving the state untouched — exactly when the
inbox is closed; once `Shutdown` has been processed the loop stays stopped,
and every subsequent `write_block` (through any clone of the handle) returns
`ChannelClosed`. -/
theorem C9_nonblocking_enqueue (hashFn : List Nat → List Nat) (d : Disk)
    (id : Nat) (info : StorageInfo) (hashes : List Nat) (binfo : BlockInfo)
    (data : List Nat) (cs : List Command) :
    (d.running = true →
      (allocate_new_torrent hashFn d id info hashes).2 = .Ok () ∧
      (write_block hashFn d id binfo data).2 = .Ok () ∧
      (shutdown hashFn d).2 = .Ok ()) ∧
    (d.running = false →
      allocate_new_torrent hashFn d id info hashes = (d, .Err .ChannelClosed) ∧
      write_block hashFn d id binfo data = (d, .Err .ChannelClosed) ∧
      shutdown hashFn d = (d, .Err .ChannelClosed)) ∧
    (runCommands hashFn (shutdown hashFn d).1 cs).running = false ∧
    write_block hashFn (runCommands hashFn (shutdown hashFn d).1 cs) id binfo
      data =
      (runCommands hashFn (shutdown hashFn d).1 cs, .Err .ChannelClosed) := by
  have hstop : (runCommands hashFn (shutdown hashFn d).1 cs).running = false := by
    rw [runCommands_stopped hashFn cs _ (shutdown_stops hashFn d)]
    exact shutdown_stops hashFn d
  refine ⟨?_, ?_, hstop, ?_⟩
  · intro h
    exact ⟨by simp [allocate_new_torrent, sendCommand, h],
      by simp [write_block, sendCommand, h],
      by simp [shutdown, sendCommand, h]⟩
  · intro h
    exact ⟨by simp [allocate_new_torrent, sendCommand, h],
      by simp [write_block, sendCommand, h],
      by simp [shutdown, sendCommand, h]⟩
  · simp [write_block, sendCommand, hstop]

/-- Witness for C9: enqueueing on the live demonstration disk succeeds, and
write attempts after shutdown fail with `ChannelClosed`. -/
theorem C9_nonblocking_enqueue_witness :
    ((allocate_new_torrent demoHash demoDisk 0 demoInfo demoHashes).2 =
        .Ok () ∧
      (write_block demoHash demoDisk 0 (BlockInfo.mk 0 0 1) [7]).2 = .Ok () ∧
      (shutdown demoHash demoDisk).2 = .Ok ()) ∧
    ((shutdown demoHash demoDisk).1.running = false →
      allocate_new_torrent demoHash (shutdown demoHash demoDisk).1 0 demoInfo
        demoHashes = ((shutdown demoHash demoDisk).1, .Err .ChannelClosed) ∧
      write_block demoHash (shutdown demoHash demoDisk).1 0
        (BlockInfo.mk 0 0 1) [7] =
        ((shutdown demoHash demoDisk).1, .Err .ChannelClosed) ∧
      shutdown demoHash (shutdown demoHash demoDisk).1 =
        ((shutdown demoHash demoDisk).1, .Err .ChannelClosed)) ∧
    (runCommands demoHash (shutdown demoHash demoDisk).1
      [Command.WriteBlock 0 (BlockInfo.mk 0 0 1) [7]]).running = false ∧
    write_block demoHash (runCommands demoHash (shutdown demoHash demoDisk).1
      [Command.WriteBlock 0 (BlockInfo.mk 0 0 1) [7]]) 0 (BlockInfo.mk 0 0 1)
      [7] =
      (runCommands demoHash (shutdown demoHash demoDisk).1
        [Command.WriteBlock 0 (BlockInfo.mk 0 0 1) [7]],
       .Err .ChannelClosed) :=
  ⟨(C9_nonblocking_enqueue demoHash demoDisk 0 demoInfo demoHashes
      (BlockInfo.mk 0 0 1) [7] []).1 rfl,
   (C9_nonblocking_enqueue demoHash (shutdown demoHash demoDisk).1 0 demoInfo
      demoHashes (BlockInfo.mk 0 0 1) [7] []).2.1,
   ⟨(C9_nonblocking_enqueue demoHash demoDisk 0 demoInfo demoHashes
      (BlockInfo.mk 0 0 1) [7]
      [Command.WriteBlock 0 (BlockInfo.mk 0 0 1) [7]]).2.2.1,
    (C9_nonblocking_enqueue demoHash demoDisk 0 demoInfo demoHashes
      (BlockInfo.mk 0 0 1) [7]
      [Command.WriteBlock 0 (BlockInfo.mk 0 0 1) [7]]).2.2.2⟩⟩

/-- C5 counterexample: piece 0 of the demonstration torrent is a single-block
piece; replaying its block after the piece has been committed is not
absorbed — the state changes and a second alert is emitted, refuting "no
alert and no state change" for replays after commit. -/
theorem C5_counterexample :
    demoReplayed ≠ demoCommitted ∧
    (lookupA demoCommitted.torrents 0).map (fun e => e.alerts.length) =
      some 1 ∧
    (lookupA demoReplayed.torrents 0).map (fun e => e.alerts.length) =
      some 2 := by
  decide

/-- C5 amended: a block whose offset is already buffered for an in-progress
piece is absorbed silently — the send returns `Ok` and the state is exactly
unchanged, so duplicates do not advance progress; but once a piece has been
committed its buffer has been dropped, so replaying one of its blocks starts
a fresh buffer for that piece (a state change), silently only as long as the
replayed block does not itself complete the piece again. -/
theorem C5_duplicate_absorption (hashFn : List Nat → List Nat) (d : Disk)
    (id : Nat) (binfo : BlockInfo) (data : List Nat) (e : TorrentEntry)
    (buf : PieceBuffer)
    (hrun : d.running = true)
    (hlook : lookupA d.torrents id = some e) :
    (validBlock e.info binfo data →
      lookupA e.buffers binfo.piece_index = some buf →
      buf.hasOffset binfo.offset = true →
      write_block hashFn d id binfo data = (d, .Ok ())) ∧
    (validBlock e.info binfo data →
      lookupA e.buffers binfo.piece_index = none →
      binfo.len < e.info.piece_length binfo.piece_index →
      ∃ e',
        lookupA (write_block hashFn d id binfo data).1.torrents id = some e' ∧
        e'.alerts = e.alerts ∧
        lookupA e'.buffers binfo.piece_index =
          some ⟨e.info.piece_length binfo.piece_index,
            [(binfo.offset, data)]⟩) := by
  constructor
  · intro hvalid hbuf hdup
    unfold write_block
    rw [sendCommand_running _ _ _ hrun]
    show (handleWriteBlock hashFn d id binfo data, Result.Ok ()) = _
    rw [writeBlock_duplicate_step hashFn d id binfo data e buf hlook hvalid
      hbuf hdup]
  · intro hvalid hfresh hshortb
    have hwb : (write_block hashFn d id binfo data).1 =
        handleWriteBlock hashFn d id binfo data := by
      unfold write_block
      rw [sendCommand_running _ _ _ hrun]
      rfl
    rw [hwb, writeBlock_insert_step hashFn d id binfo data e [] hlook
      (Or.inl ⟨hfresh, rfl⟩) hvalid (by intro p hp; simp at hp)]
    have hbytes : (PieceBuffer.mk (e.info.piece_length binfo.piece_index)
        ([] ++ [(binfo.offset, data)])).bytesReceived = data.length := by
      simp [PieceBuffer.bytesReceived]
    rw [if_neg (by rw [hbytes]; have := hvalid.2.2.2; omega)]
    refine ⟨_, lookupA_setA_self _ _ _, rfl, ?_⟩
    show lookupA (setA e.buffers binfo.piece_index _) binfo.piece_index = _
    rw [lookupA_setA_self]
    simp

/-- Witness for C5: a duplicate offset on an in-progress buffer of the
demonstration torrent is absorbed, and a replay after the committed piece 0
starts a fresh buffer. -/
theorem C5_duplicate_absorption_witness :
    (validBlock demoInfo (BlockInfo.mk 0 0 1) [9] →
      lookupA [(0, PieceBuffer.mk 3 [(0, [9])])] (BlockInfo.mk 0 0 1).piece_index =
        some (PieceBuffer.mk 3 [(0, [9])]) →
      (PieceBuffer.mk 3 [(0, [9])]).hasOffset (BlockInfo.mk 0 0 1).offset = true →
      write_block demoHash demoPartial 0 (BlockInfo.mk 0 0 1) [9] =
        (demoPartial, .Ok ())) ∧
    (validBlock demoCommittedEntry.info (BlockInfo.mk 0 0 1) [7] →
      lookupA demoCommittedEntry.buffers (BlockInfo.mk 0 0 1).piece_index = none →
      (BlockInfo.mk 0 0 1).len <
        demoCommittedEntry.info.piece_length (BlockInfo.mk 0 0 1).piece_index →
      ∃ e',
        lookupA (write_block demoHash demoCommitted 0 (BlockInfo.mk 0 0 1)
          [7]).1.torrents 0 = some e' ∧
        e'.alerts = demoCommittedEntry.alerts ∧
        lookupA e'.buffers (BlockInfo.mk 0 0 1).piece_index =
          some ⟨demoCommittedEntry.info.piece_length
            (BlockInfo.mk 0 0 1).piece_index, [((BlockInfo.mk 0 0 1).offset, [7])]⟩) :=
  ⟨fun hv hb hd =>
    (C5_duplicate_absorption demoHash demoPartial 0 (BlockInfo.mk 0 0 1) [9]
      { demoEntry with buffers := [(0, PieceBuffer.mk 3 [(0, [9])])] }
      (PieceBuffer.mk 3 [(0, [9])]) rfl (by decide)).1 hv hb hd,
   fun hv hb hs =>
    (C5_duplicate_absorption demoHash demoCommitted 0 (BlockInfo.mk 0 0 1) [7]
      demoCommittedEntry (PieceBuffer.mk 3 []) rfl (by decide)).2 hv hb hs⟩

/-- C4 counterexample: a successful `NewTorrent` on a fresh disk emits the
successful allocation alert, yet the allocated entry has no destination file
at all — the file is not created at allocation time (exactly what the
repository's own `test_write_invalid_piece` asserts at its end). -/
theorem C4_counterexample :
    (allocate_new_torrent demoHash Disk.new 0 demoInfo demoHashes).1.alerts =
      [Alert.TorrentAllocation (.Ok 0)] ∧
    (lookupA (allocate_new_torrent demoHash Disk.new 0 demoInfo
      demoHashes).1.torrents 0).map TorrentEntry.file = some none := by
  decide

/-- C4 amended: a successful `NewTorrent` does not create the destination
file — the freshly allocated entry has no file; the file is created when the
first piece is committed, zero-filled at exactly `download_len` bytes with
the piece image at its region, so from the first commit onward it exists at
full size. -/
theorem C4_lazy_file_creation (hashFn : List Nat → List Nat) (d : Disk)
    (id i : Nat) (info : StorageInfo) (hashes : List Nat) (piece : List Nat)
    (e : TorrentEntry) :
    (d.running = true → lookupA d.torrents id = none →
      hashes.length = info.piece_count * 20 →
      (lookupA (allocate_new_torrent hashFn d id info hashes).1.torrents
        id).map TorrentEntry.file = some none) ∧
    (d.running = true → lookupA d.torrents id = some e → e.file = none →
      i < e.info.piece_count → piece.length = e.info.piece_length i →
      0 < piece.length → lookupA e.buffers i = none →
      hashFn piece = expectedHash e.piece_hashes i →
      i * e.info.piece_len + piece.length ≤ e.info.download_len →
      (lookupA (writeBlocks hashFn d id piece
        (for_each_block i piece.length)).torrents id).map TorrentEntry.file =
        some (some (List.replicate (i * e.info.piece_len) 0 ++ piece ++
          List.replicate (e.info.download_len -
            (i * e.info.piece_len + piece.length)) 0)) ∧
      (List.replicate (i * e.info.piece_len) 0 ++ piece ++
        List.replicate (e.info.download_len -
          (i * e.info.piece_len + piece.length)) 0).length =
        e.info.download_len) := by
  constructor
  · intro hrun hfresh hmeta
    have halloc : (allocate_new_torrent hashFn d id info hashes).1 =
        handleNewTorrent d id info hashes := by
      unfold allocate_new_torrent
      rw [sendCommand_running _ _ _ hrun]
      rfl
    rw [halloc, handleNewTorrent_ok d id info hashes hfresh hmeta]
    rw [show lookupA (setA d.torrents id
      { info := info, piece_hashes := hashes, buffers := [], file := none,
        alerts := [] }) id = some
      { info := info, piece_hashes := hashes, buffers := [], file := none,
        alerts := [] } from lookupA_setA_self _ _ _]
    rfl
  · intro hrun hlook hfile hcount hplen hpos hfresh hhash hle
    rw [commit_piece hashFn d id i piece e hrun hlook hcount hplen hpos hfresh
      hhash]
    have hwrite : writeToFile e.file e.info.download_len
        (i * e.info.piece_len) piece =
        List.replicate (i * e.info.piece_len) 0 ++ piece ++
          List.replicate (e.info.download_len -
            (i * e.info.piece_len + piece.length)) 0 := by
      unfold writeToFile
      rw [hfile]
      simp only [Option.getD_none, List.take_replicate, List.drop_replicate]
      have hmin : min (i * e.info.piece_len) e.info.download_len =
          i * e.info.piece_len := by omega
      rw [hmin]
    constructor
    · rw [lookupA_setA_self]
      simp [hwrite]
    · simp only [List.length_append, List.length_replicate]
      omega

/-- Witness for C4 (amended): concretely, allocation leaves no file, and
committing piece 0 creates the 5-byte file `[1,2,3,0,0]`. -/
theorem C4_lazy_file_creation_witness :
    ((lookupA (allocate_new_torrent demoHash Disk.new 0 demoInfo
        demoHashes).1.torrents 0).map TorrentEntry.file = some none) ∧
    ((lookupA (writeBlocks demoHash demoDisk 0 [1, 2, 3]
        (for_each_block 0 ([1, 2, 3] : List Nat).length)).torrents 0).map
      TorrentEntry.file =
      some (some (List.replicate (0 * demoEntry.info.piece_len) 0 ++
        [1, 2, 3] ++
        List.replicate (demoEntry.info.download_len -
          (0 * demoEntry.info.piece_len +
            ([1, 2, 3] : List Nat).length)) 0)) ∧
      (List.replicate (0 * demoEntry.info.piece_len) 0 ++ [1, 2, 3] ++
        List.replicate (demoEntry.info.download_len -
          (0 * demoEntry.info.piece_len +
            ([1, 2, 3] : List Nat).length)) 0).length =
        demoEntry.info.download_len) :=
  ⟨(C4_lazy_file_creation demoHash Disk.new 0 0 demoInfo demoHashes [1, 2, 3]
      demoEntry).1 rfl rfl (by decide),
   (C4_lazy_file_creation demoHash demoDisk 0 0 demoInfo demoHashes [1, 2, 3]
      demoEntry).2 rfl (by decide) rfl (by decide) (by decide) (by decide)
      rfl (by decide) (by decide)⟩

theorem batchInv_step (hashFn : List Nat → List Nat) (d : Disk) (c : Command)
    (hinv : diskBatchInv d) : diskBatchInv (sendCommand hashFn d c).1 := by
  unfold sendCommand
  by_cases hr : d.running = true
  · simp only [hr, if_true]
    cases c with
    | Shutdown => exact hinv
    | NewTorrent id info hashes =>
      show diskBatchInv (handleNewTorrent d id info hashes)
      cases hl : lookupA d.torrents id with
      | some e =>
        rw [handleNewTorrent_dup d id info hashes e hl]
        exact hinv
      | none =>
        by_cases hm : hashes.length = info.piece_count * 20
        · rw [handleNewTorrent_ok d id info hashes hl hm]
          intro p hp a ha bw hbw
          rcases mem_setA _ _ _ p hp with hp1 | hp1
          · exact hinv p hp1 a ha bw hbw
          · have hsnd : p.2 =
                ({ info := info, piece_hashes := hashes, buffers := [],
                   file := none, alerts := [] } : TorrentEntry) := by
              rw [hp1]
            rw [hsnd] at ha
            simp at ha
        · rw [handleNewTorrent_badmeta d id info hashes hl hm]
          exact hinv
    | WriteBlock id binfo data =>
      show diskBatchInv (handleWriteBlock hashFn d id binfo data)
      rcases handleWriteBlock_shape hashFn d id binfo data with
        hs | ⟨e, e', hl, hs, halt⟩
      · rw [hs]
        exact hinv
      · rw [hs]
        intro p hp a ha bw hbw
        rcases mem_setA _ _ _ p hp with hp1 | hp1
        · exact hinv p hp1 a ha bw hbw
        · have hsnd : p.2 = e' := by rw [hp1]
          rw [hsnd] at ha
          have hemem : (id, e) ∈ d.torrents := lookupA_mem _ _ _ hl
          rcases halt with h1 | h1 | ⟨blocks, h1, hpi⟩ | h1
          · rw [h1] at ha
            exact hinv _ hemem a ha bw hbw
          · rw [h1] at ha
            rcases List.mem_append.mp ha with ha1 | ha1
            · exact hinv _ hemem a ha1 bw hbw
            · simp at ha1
              rw [ha1] at hbw
              exact absurd hbw (by simp)
          · rw [h1] at ha
            rcases List.mem_append.mp ha with ha1 | ha1
            · exact hinv _ hemem a ha1 bw hbw
            · simp at ha1
              rw [ha1] at hbw
              injection hbw with h2
              injection h2 with h3
              intro b1 hb1 b2 hb2
              rw [← h3] at hb1 hb2
              exact (hpi b1 hb1).trans (hpi b2 hb2).symm
          · rw [h1] at ha
            rcases List.mem_append.mp ha with ha1 | ha1
            · exact hinv _ hemem a ha1 bw hbw
            · simp at ha1
              rw [ha1] at hbw
              injection hbw with h2
              injection h2 with h3
              intro b1 hb1
              rw [← h3] at hb1
              simp at hb1
  · simp only [hr, if_false]
    exact hinv

theorem batchInv_run (hashFn : List Nat → List Nat) (cs : List Command) :
    ∀ d : Disk, diskBatchInv d → diskBatchInv (runCommands hashFn d cs) := by
  induction cs with
  | nil => intro d h; exact h
  | cons c rest ih =>
    intro d h
    exact ih _ (batchInv_step hashFn d c h)

/-- C10: whatever command sequence is run from the initial disk state, every
`BatchWrite (Ok _)` alert emitted on any torrent's channel carries a `blocks`
vector whose `BlockInfo` entries all name the same piece index — a successful
batch reports blocks of exactly one piece, never a mixture. -/
theorem C10_batch_single_piece (hashFn : List Nat → List Nat)
    (cmds : List Command) : diskBatchInv (runCommands hashFn Disk.new cmds) :=
  batchInv_run hashFn cmds Disk.new (fun p hp => by simp [Disk.new] at hp)
